/-
Verification of the COLLADA geometry-to-mesh conversion pipeline of the
polygon-viewer repository (src/collada.rs): a shallow embedding of the
document data model, the geometry locator `load_mesh` and the polylist
decoder `process_polylist`, together with theorems settling the stated
properties of the pipeline.

The source file consumes two external collaborators:
  - the `collaborate` crate supplies the parsed document object model
    (meshes, sources, accessors, polylists and their iteration order);
  - the `polygon` crate supplies the mesh builder.
Where the behavior of those collaborators is needed, the corresponding
definition is modelled from the specification and marked
"Modelled from the spec".  Everything else is translated directly from
src/collada.rs.
-/
import Mathlib

set_option autoImplicit false

deriving instance DecidableEq for Except

namespace Collada

/-- Scalar stand-in for f32.  The decoder only moves float values between
containers (array → slice → component → vertex field) and never performs
arithmetic or numeric comparison on them, so the development is stated over
an executable carrier with decidable equality instead of the opaque
machine-float type. -/
abbrev F := Int

/-- A named accessor parameter (a param child element, whose name is
optional). -/
structure Param where
  name : Option String
deriving DecidableEq

/-- The common accessor of a source: element count, stride and the ordered
list of named params. -/
structure Accessor where
  count : Nat
  stride : Nat
  params : List Param
deriving DecidableEq

/-- Modelled from the spec: the element-access operation of the external
document library (`accessor.access(data, i)`): logical element `i` of the
flat data is the stride-long slice beginning at `stride * i`. -/
def Accessor.access (a : Accessor) (data : List F) (i : Nat) : List F :=
  (data.drop (a.stride * i)).take a.stride

/-- The raw float array of a source. -/
structure FloatArrayData where
  data : List F
deriving DecidableEq

/-- The array variants of a source; only the float-array variant is used by
the decoder, every other kind is collapsed into `other`. -/
inductive ArrayElement
  | float (arr : FloatArrayData)
  | other
deriving DecidableEq

/-- `Array::as_float_array` of the document library. -/
def ArrayElement.as_float_array : ArrayElement → Option FloatArrayData
  | .float arr => some arr
  | .other => none

/-- A data source: id, optional array and optional common accessor. -/
structure Source where
  id : String
  array : Option ArrayElement
  accessor : Option Accessor
deriving DecidableEq

/-- `source.common_accessor()` of the document library. -/
def Source.common_accessor (s : Source) : Option Accessor := s.accessor

/-- An unshared input (child of a vertices block): semantic plus the id of
the referenced source (`input.source.id()` in the code). -/
structure Input where
  semantic : String
  source : String
deriving DecidableEq

/-- A shared input (child of a polylist): offset, semantic and the id of the
referenced source. -/
structure InputShared where
  offset : Nat
  semantic : String
  source : String
deriving DecidableEq

/-- The vertices block of a mesh: its id and the ordered list of inputs. -/
structure Vertices where
  id : String
  inputs : List Input
deriving DecidableEq

/-- A polylist primitive: the ordered shared inputs, the per-polygon corner
counts and the flat index stream p. -/
structure Polylist where
  inputs : List InputShared
  vcount : List Nat
  p : List Nat
deriving DecidableEq

/-- `polylist.inputs_for_offset(off)` of the document library: all inputs
declared at the given offset. -/
def Polylist.inputs_for_offset (pl : Polylist) (off : Nat) : List InputShared :=
  pl.inputs.filter (fun i => i.offset == off)

/-- The primitive variants of a mesh; only polylists are used. -/
inductive Primitive
  | polylist (pl : Polylist)
  | other
deriving DecidableEq

/-- `Primitive::as_polylist` of the document library. -/
def Primitive.as_polylist : Primitive → Option Polylist
  | .polylist pl => some pl
  | .other => none

/-- A mesh: its vertices block, its sources and its primitives. -/
structure Mesh where
  vertices : Vertices
  sources : List Source
  primitives : List Primitive
deriving DecidableEq

/-- `mesh.find_source(id)` of the document library: first source whose id
matches. -/
def Mesh.find_source (m : Mesh) (sid : String) : Option Source :=
  m.sources.find? (fun s => s.id == sid)

/-- The geometric element of a geometry; only meshes are used. -/
inductive GeometricElement
  | mesh (m : Mesh)
  | other
deriving DecidableEq

/-- `geometric_element.as_mesh()` of the document library. -/
def GeometricElement.as_mesh : GeometricElement → Option Mesh
  | .mesh m => some m
  | .other => none

/-- A geometry: a named container of one geometric element. -/
structure Geometry where
  geometric_element : GeometricElement
deriving DecidableEq

/-- A document library; only the geometries variant matters here. -/
inductive Library
  | geometries (geoms : List Geometry)
  | other
deriving DecidableEq

/-- `Library::as_library_geometries` of the document library. -/
def Library.as_library_geometries : Library → Option (List Geometry)
  | .geometries geoms => some geoms
  | .other => none

/-- A parsed document: its ordered list of libraries. -/
structure Document where
  libraries : List Library
deriving DecidableEq

/-! ### Corner and attribute structure of a polylist

The iteration `for polygon in polylist { for vertex in polygon { for
attribute in vertex } }` is supplied by the document library; the shape of
what it yields is modelled from the spec: each polygon corner carries one
attribute per distinct declared offset, the stride of the flat index
stream p equals the number of distinct offsets, and corner c reads its
attribute indices from p at positions c * stride, c * stride + 1, .... -/

/-- Distinct elements of a list, keeping the first occurrence order. -/
def dedupFirst (l : List Nat) : List Nat :=
  go [] l
where
  go (seen : List Nat) : List Nat → List Nat
    | [] => []
    | x :: xs => if x ∈ seen then go seen xs else x :: go (x :: seen) xs

/-- The distinct offsets declared by a polylist, in first occurrence
order. -/
def Polylist.offsets (pl : Polylist) : List Nat :=
  dedupFirst (pl.inputs.map (fun i => i.offset))

/-- The stride of the flat index stream: the number of distinct offsets. -/
def Polylist.stride (pl : Polylist) : Nat :=
  pl.offsets.length

/-- One vertex attribute as yielded by the document library: the offset it
belongs to plus the index read from the p stream. -/
structure VertexAttribute where
  offset : Nat
  index : Nat
deriving DecidableEq

/-- Modelled from the spec: the attributes built from the given offsets,
reading indices from the p stream starting at position `base + j` for the
j-th offset. -/
def attributesFrom (pl : Polylist) (base : Nat) : List Nat → Nat → List VertexAttribute
  | [], _ => []
  | off :: rest, j => ⟨off, pl.p.getD (base + j) 0⟩ :: attributesFrom pl base rest (j + 1)

/-- Modelled from the spec: the attribute list of global corner `c`. -/
def Polylist.cornerAttributes (pl : Polylist) (c : Nat) : List VertexAttribute :=
  attributesFrom pl (c * pl.stride) pl.offsets 0

/-- The total number of polygon corners of a polylist. -/
def Polylist.totalCorners (pl : Polylist) : Nat :=
  pl.vcount.sum

/-- Modelled from the spec: the flat sequence of corner attribute lists
traversed by the decoder (polygon grouping does not affect the decode,
corners are processed in global order). -/
def Polylist.corners (pl : Polylist) : List (List VertexAttribute) :=
  (List.range pl.totalCorners).map pl.cornerAttributes

/-! ### Output data model (the polygon crate side) -/

/-- A 3d point (`polygon::math::Point`). -/
structure Point where
  x : F
  y : F
  z : F
deriving DecidableEq

/-- A 3d vector (`polygon::math::Vector3`). -/
structure Vector3 where
  x : F
  y : F
  z : F
deriving DecidableEq

/-- A vertex record handed to the mesh builder
(`polygon::geometry::mesh::Vertex`). -/
structure Vertex where
  position : Point
  normal : Option Vector3
  texcoord : List F
deriving DecidableEq

/-- The built mesh: the vertex list and the 32-bit index list. -/
structure PolygonMesh where
  vertices : List Vertex
  indices : List Nat
deriving DecidableEq

/-! ### Decoder outcomes -/

/-- The fatal, process-aborting conditions of `process_polylist` (one
variant per assert or expect site in the source). -/
inductive Panic
  /-- assert failure: input targets a vertices block of another mesh. -/
  | foreignVertices
  /-- the vertices block has no input with the POSITION semantic. -/
  | noPositionSemantic
  /-- no source with a matching id exists in the parent mesh. -/
  | sourceNotFound
  /-- the source has no common accessor. -/
  | noAccessor
  /-- the source array is not a float array. -/
  | notFloatArray
  /-- the extracted element has no X component. -/
  | missingX
  /-- the extracted element has no Y component. -/
  | missingY
  /-- the extracted element has no Z component. -/
  | missingZ
deriving DecidableEq

/-- The outcome of a decode step: a value, a recoverable error (the
static string values of the Rust Result type) or an abort. -/
inductive DResult (α : Type)
  | ok (val : α)
  | err (msg : String)
  | fatal (p : Panic)
deriving DecidableEq

/-- The per-corner mutable state of the decoder loop: the position and
normal accumulated so far. -/
structure VertexState where
  position : Option Point
  normal : Option Vector3
deriving DecidableEq

/-! ### The decoder, translated from process_polylist -/

/-- The param-matching loop shared by both semantic branches: zip the
accessor params against the element slice positionally; a param named X, Y
or Z overwrites the corresponding component, every other name is
ignored. -/
def scanParams : List Param → List F → Option F × Option F × Option F → Option F × Option F × Option F
  | [], _, acc => acc
  | _, [], acc => acc
  | par :: ps, v :: vs, (x, y, z) =>
    match par.name with
    | some "X" => scanParams ps vs (some v, y, z)
    | some "Y" => scanParams ps vs (x, some v, z)
    | some "Z" => scanParams ps vs (x, y, some v)
    | _ => scanParams ps vs (x, y, z)

/-- The VERTEX branch of the semantic dispatch: check that the input
references the own vertices block of this mesh, find the POSITION input inside
the vertices block, resolve its source, require a float array with a
common accessor, access logical element `index` and collect the X, Y, Z
components into a position. -/
def vertexResolve (m : Mesh) (input : InputShared) (index : Nat) : Except Panic Point :=
  if m.vertices.id ≠ input.source then
    .error .foreignVertices
  else
    match m.vertices.inputs.find? (fun i => i.semantic == "POSITION") with
    | none => .error .noPositionSemantic
    | some inner =>
      match m.find_source inner.source with
      | none => .error .sourceNotFound
      | some source =>
        match source.common_accessor with
        | none => .error .noAccessor
        | some accessor =>
          match source.array.bind ArrayElement.as_float_array with
          | none => .error .notFloatArray
          | some arr =>
            match scanParams accessor.params (accessor.access arr.data index) (none, none, none) with
            | (some x, some y, some z) => .ok ⟨x, y, z⟩
            | (none, _, _) => .error .missingX
            | (_, none, _) => .error .missingY
            | (_, _, none) => .error .missingZ

/-- The NORMAL branch of the semantic dispatch: resolve the source of the input
directly against the source list of the mesh, require a float array with a
common accessor, access logical element `index` and collect the X, Y, Z
components into a normal vector. -/
def normalResolve (m : Mesh) (input : InputShared) (index : Nat) : Except Panic Vector3 :=
  match m.find_source input.source with
  | none => .error .sourceNotFound
  | some source =>
    match source.common_accessor with
    | none => .error .noAccessor
    | some accessor =>
      match source.array.bind ArrayElement.as_float_array with
      | none => .error .notFloatArray
      | some arr =>
        match scanParams accessor.params (accessor.access arr.data index) (none, none, none) with
        | (some x, some y, some z) => .ok ⟨x, y, z⟩
        | (none, _, _) => .error .missingX
        | (_, none, _) => .error .missingY
        | (_, _, none) => .error .missingZ

/-- One iteration of the inner input loop: dispatch on the semantic; the
VERTEX branch stores a position, the NORMAL branch stores a normal, any
other semantic is reported and skipped. -/
def processInput (m : Mesh) (input : InputShared) (index : Nat) (st : VertexState) : Except Panic VertexState :=
  if input.semantic = "VERTEX" then
    match vertexResolve m input index with
    | .error p => .error p
    | .ok pos => .ok { st with position := some pos }
  else if input.semantic = "NORMAL" then
    match normalResolve m input index with
    | .error p => .error p
    | .ok n => .ok { st with normal := some n }
  else
    .ok st

/-- The loop over all inputs declared at one offset. -/
def processInputs (m : Mesh) (index : Nat) : List InputShared → VertexState → Except Panic VertexState
  | [], st => .ok st
  | input :: rest, st =>
    match processInput m input index st with
    | .error p => .error p
    | .ok st2 => processInputs m index rest st2

/-- Processing of one attribute of a corner: run all inputs declared at the
offset of the attribute with the index of the attribute. -/
def processAttribute (m : Mesh) (pl : Polylist) (a : VertexAttribute) (st : VertexState) : Except Panic VertexState :=
  processInputs m a.index (pl.inputs_for_offset a.offset) st

/-- The loop over all attributes of a corner. -/
def processAttributes (m : Mesh) (pl : Polylist) : List VertexAttribute → VertexState → Except Panic VertexState
  | [], st => .ok st
  | a :: rest, st =>
    match processAttribute m pl a st with
    | .error p => .error p
    | .ok st2 => processAttributes m pl rest st2

/-- Decode one polygon corner: process all its attributes starting from the
empty state, then require that a position was produced; its absence is the
recoverable per-vertex error.  The texcoord list is always empty. -/
def processCorner (m : Mesh) (pl : Polylist) (attrs : List VertexAttribute) : DResult Vertex :=
  match processAttributes m pl attrs ⟨none, none⟩ with
  | .error p => .fatal p
  | .ok st =>
    match st.position with
    | none => .err "Vertex missing position attribute"
    | some pos => .ok ⟨pos, st.normal, []⟩

/-- Truncation to an unsigned 32-bit value (the `as u32` cast of the index
counter). -/
def u32Mod (n : Nat) : Nat := n % 2 ^ 32

/-- The outer corner loop: decode each corner in order, appending the vertex
record to the vertex accumulator and the truncated running count to the
index accumulator. -/
def processCorners (m : Mesh) (pl : Polylist) : List (List VertexAttribute) → List Vertex → List Nat → DResult (List Vertex × List Nat)
  | [], vs, is => .ok (vs, is)
  | attrs :: rest, vs, is =>
    match processCorner m pl attrs with
    | .fatal p => .fatal p
    | .err e => .err e
    | .ok v => processCorners m pl rest (vs ++ [v]) (is ++ [u32Mod is.length])

/-- The vertex and index lists assembled by process_polylist and handed to
the external mesh builder. -/
def decodePolylist (m : Mesh) (pl : Polylist) : DResult (List Vertex × List Nat) :=
  processCorners m pl pl.corners [] []

/-- Modelled from the spec: the external mesh builder
(MeshBuilder::build) accepts the assembled lists when every index is in
range of the vertex list and reports a recoverable validation failure
otherwise. -/
def buildMesh (vs : List Vertex) (is : List Nat) : Option PolygonMesh :=
  if is.all (fun i => i < vs.length) then some ⟨vs, is⟩ else none

/-- process_polylist: decode the polylist, then delegate buffer
construction to the mesh builder, mapping builder failure to the
recoverable build error. -/
def process_polylist (m : Mesh) (pl : Polylist) : DResult PolygonMesh :=
  match decodePolylist m pl with
  | .fatal p => .fatal p
  | .err e => .err e
  | .ok (vs, is) =>
    match buildMesh vs is with
    | some pm => .ok pm
    | none => .err "Failed to build mesh"

/-! ### The geometry locator, translated from load_mesh -/

/-- The inner primitive loop of load_mesh: the first polylist primitive of
the mesh, paired with the mesh. -/
def findInPrimitives (m : Mesh) : List Primitive → Option (Mesh × Polylist)
  | [] => none
  | prim :: rest =>
    match prim.as_polylist with
    | some pl => some (m, pl)
    | none => findInPrimitives m rest

/-- The geometry loop of load_mesh: the first mesh geometry owning a
polylist primitive. -/
def findInGeometries : List Geometry → Option (Mesh × Polylist)
  | [] => none
  | g :: rest =>
    match g.geometric_element.as_mesh with
    | some m =>
      match findInPrimitives m m.primitives with
      | some pair => some pair
      | none => findInGeometries rest
    | none => findInGeometries rest

/-- The library loop of load_mesh: the first geometries library owning a
mesh with a polylist primitive. -/
def findInLibraries : List Library → Option (Mesh × Polylist)
  | [] => none
  | lib :: rest =>
    match lib.as_library_geometries with
    | some geoms =>
      match findInGeometries geoms with
      | some pair => some pair
      | none => findInLibraries rest
    | none => findInLibraries rest

/-- load_mesh on an already-parsed document: locate the first mesh and
polylist in document order and decode it; report the not-found error when
no pair exists.  (Opening and parsing the file is the caller-owned input
boundary and is not part of the conversion core.) -/
def load_mesh (doc : Document) : DResult PolygonMesh :=
  match findInLibraries doc.libraries with
  | some (m, pl) => process_polylist m pl
  | none => .err "No meshes found in the document I guess"

/-- Following the spec wording for the locator contract: the list of all
(Mesh, Polylist) pairs of the document, scanning libraries, then
geometries, then primitives in document order. -/
def meshPolylistPairs (doc : Document) : List (Mesh × Polylist) :=
  (doc.libraries.filterMap Library.as_library_geometries).flatMap (fun geoms =>
    (geoms.filterMap (fun g => g.geometric_element.as_mesh)).flatMap (fun m =>
      (m.primitives.filterMap Primitive.as_polylist).map (fun pl => (m, pl))))

/-- Following the spec wording for the shared final stage of the VERTEX and
NORMAL resolutions (sections 4.3 and 4.4): resolve a source id directly
against the source list of the mesh and extract the X, Y, Z components of
logical element `index`. -/
def finalStageXYZ (m : Mesh) (sid : String) (index : Nat) : Except Panic (F × F × F) :=
  match m.find_source sid with
  | none => .error .sourceNotFound
  | some source =>
    match source.common_accessor with
    | none => .error .noAccessor
    | some accessor =>
      match source.array.bind ArrayElement.as_float_array with
      | none => .error .notFloatArray
      | some arr =>
        match scanParams accessor.params (accessor.access arr.data index) (none, none, none) with
        | (some x, some y, some z) => .ok (x, y, z)
        | (none, _, _) => .error .missingX
        | (_, none, _) => .error .missingY
        | (_, _, none) => .error .missingZ

/-! ### Concrete documents used by witnesses and counterexamples -/

/-- The position source of the spec scenario triangle. -/
def posSource : Source :=
  ⟨"pos", some (.float ⟨[0, 0, 0, 1, 0, 0, 0, 1, 0]⟩), some ⟨3, 3, [⟨some "X"⟩, ⟨some "Y"⟩, ⟨some "Z"⟩]⟩⟩

/-- The normal source of the spec scenario triangle. -/
def normSource : Source :=
  ⟨"norm", some (.float ⟨[0, 0, 1, 0, 0, 1, 0, 0, 1]⟩), some ⟨3, 3, [⟨some "X"⟩, ⟨some "Y"⟩, ⟨some "Z"⟩]⟩⟩

/-- The polylist of the spec scenario triangle. -/
def pl1 : Polylist := ⟨[⟨0, "VERTEX", "verts"⟩, ⟨1, "NORMAL", "norm"⟩], [3], [0, 0, 1, 1, 2, 2]⟩

/-- The mesh of the spec scenario triangle. -/
def mesh1 : Mesh := ⟨⟨"verts", [⟨"POSITION", "pos"⟩]⟩, [posSource, normSource], [.polylist pl1]⟩

/-- A document holding only the scenario triangle. -/
def doc1 : Document := ⟨[.geometries [⟨.mesh mesh1⟩]]⟩

/-- The vertex records the scenario triangle decodes to. -/
def scenarioVertices : List Vertex :=
  [⟨⟨0, 0, 0⟩, some ⟨0, 0, 1⟩, []⟩, ⟨⟨1, 0, 0⟩, some ⟨0, 0, 1⟩, []⟩, ⟨⟨0, 1, 0⟩, some ⟨0, 0, 1⟩, []⟩]

/-- A polylist with one corner and no inputs at all: the corner produces no
position. -/
def plNoPos : Polylist := ⟨[], [1], []⟩

/-- A mesh whose only primitive is the no-input polylist. -/
def meshNoPos : Mesh := ⟨⟨"verts", [⟨"POSITION", "pos"⟩]⟩, [posSource], [.polylist plNoPos]⟩

/-- A document whose first located pair fails to decode (missing position)
while the second pair (the scenario triangle) would decode successfully. -/
def docFirstBad : Document := ⟨[.geometries [⟨.mesh meshNoPos⟩, ⟨.mesh mesh1⟩]]⟩

/-- A document with no geometries library at all. -/
def docEmpty : Document := ⟨[.other]⟩

/-! ### Locator lemmas -/

theorem head?_append_or {α : Type} (l1 l2 : List α) :
    (l1 ++ l2).head? = (l1.head?).or l2.head? := by
  cases l1 <;> rfl

theorem findInPrimitives_eq (m : Mesh) (ps : List Primitive) :
    findInPrimitives m ps = ((ps.filterMap Primitive.as_polylist).map (fun pl => (m, pl))).head? := by
  induction ps with
  | nil => rfl
  | cons prim rest ih =>
    cases prim with
    | polylist pl => simp [findInPrimitives, Primitive.as_polylist, List.filterMap_cons]
    | other => simpa [findInPrimitives, Primitive.as_polylist, List.filterMap_cons] using ih

theorem findInGeometries_eq (gs : List Geometry) :
    findInGeometries gs =
      ((gs.filterMap (fun g => g.geometric_element.as_mesh)).flatMap (fun m =>
        (m.primitives.filterMap Primitive.as_polylist).map (fun pl => (m, pl)))).head? := by
  induction gs with
  | nil => rfl
  | cons g rest ih =>
    cases hg : g.geometric_element.as_mesh with
    | none => simpa [findInGeometries, hg, List.filterMap_cons] using ih
    | some m =>
      simp only [findInGeometries, hg, List.filterMap_cons, List.flatMap_cons, head?_append_or,
        findInPrimitives_eq, ih]
      cases ((m.primitives.filterMap Primitive.as_polylist).map (fun pl => (m, pl))).head? <;> rfl

theorem findInLibraries_eq (ls : List Library) :
    findInLibraries ls =
      ((ls.filterMap Library.as_library_geometries).flatMap (fun geoms =>
        (geoms.filterMap (fun g => g.geometric_element.as_mesh)).flatMap (fun m =>
          (m.primitives.filterMap Primitive.as_polylist).map (fun pl => (m, pl))))).head? := by
  induction ls with
  | nil => rfl
  | cons lib rest ih =>
    cases hl : lib.as_library_geometries with
    | none => simpa [findInLibraries, hl, List.filterMap_cons] using ih
    | some geoms =>
      simp only [findInLibraries, hl, List.filterMap_cons, List.flatMap_cons, head?_append_or,
        findInGeometries_eq, ih]
      cases ((geoms.filterMap (fun g => g.geometric_element.as_mesh)).flatMap (fun m =>
        (m.primitives.filterMap Primitive.as_polylist).map (fun pl => (m, pl)))).head? <;> rfl

/-! ### Error-message lemmas for the decoder -/

theorem head?_eq_none_iff_nil {α : Type} (l : List α) : l.head? = none ↔ l = [] := by
  cases l <;> simp

theorem processCorner_err (m : Mesh) (pl : Polylist) (attrs : List VertexAttribute) (e : String)
    (h : processCorner m pl attrs = .err e) : e = "Vertex missing position attribute" := by
  unfold processCorner at h
  cases hp : processAttributes m pl attrs ⟨none, none⟩ with
  | error p => rw [hp] at h; exact absurd h (by simp)
  | ok st =>
    rw [hp] at h
    cases hs : st.position with
    | none => simp [hs] at h; exact h.symm
    | some pos => simp [hs] at h

theorem processCorners_err (m : Mesh) (pl : Polylist) (cs : List (List VertexAttribute))
    (vs : List Vertex) (is : List Nat) (e : String)
    (h : processCorners m pl cs vs is = .err e) : e = "Vertex missing position attribute" := by
  induction cs generalizing vs is with
  | nil => exact absurd h (by simp [processCorners])
  | cons attrs rest ih =>
    unfold processCorners at h
    cases hc : processCorner m pl attrs with
    | fatal p => rw [hc] at h; exact absurd h (by simp)
    | err e2 => rw [hc] at h; simp at h; exact h ▸ processCorner_err m pl attrs e2 hc
    | ok v => rw [hc] at h; exact ih _ _ h

theorem process_polylist_err (m : Mesh) (pl : Polylist) (e : String)
    (h : process_polylist m pl = .err e) :
    e = "Vertex missing position attribute" ∨ e = "Failed to build mesh" := by
  unfold process_polylist at h
  cases hd : decodePolylist m pl with
  | fatal p => rw [hd] at h; exact absurd h (by simp)
  | err e2 =>
    rw [hd] at h; simp at h
    exact .inl (h ▸ processCorners_err m pl pl.corners [] [] e2 hd)
  | ok pair =>
    obtain ⟨vs, is⟩ := pair
    rw [hd] at h
    cases hb : buildMesh vs is with
    | some pm => simp [hb] at h
    | none => simp [hb] at h; exact .inr h.symm

/-! ### Claim theorems: the locator -/

/-- C2: for every Document, the geometry locator selects the first
(Mesh, Polylist) pair in document order — scanning libraries, then
geometries within a library, then primitives within a mesh — and load_mesh
returns the not-found error exactly when no such pair exists anywhere in
the document. -/
theorem locator_selects_first_pair (doc : Document) :
    findInLibraries doc.libraries = (meshPolylistPairs doc).head? ∧
    (load_mesh doc = .err "No meshes found in the document I guess" ↔ meshPolylistPairs doc = []) := by
  have hfind : findInLibraries doc.libraries = (meshPolylistPairs doc).head? := by
    simpa [meshPolylistPairs] using findInLibraries_eq doc.libraries
  refine ⟨hfind, ?_, ?_⟩
  · intro h
    cases hp : (meshPolylistPairs doc).head? with
    | none => exact (head?_eq_none_iff_nil _).mp hp
    | some pair =>
      obtain ⟨m, pl⟩ := pair
      rw [load_mesh, hfind, hp] at h
      rcases process_polylist_err m pl _ h with h1 | h1 <;> exact absurd h1 (by decide)
  · intro h
    rw [load_mesh, hfind, h]
    rfl

/-- Witness for C2 at the no-geometry-library document of the spec
scenario. -/
theorem locator_selects_first_pair_witness :
    (findInLibraries docEmpty.libraries = (meshPolylistPairs docEmpty).head? ∧
      (load_mesh docEmpty = .err "No meshes found in the document I guess" ↔
        meshPolylistPairs docEmpty = [])) ∧
    load_mesh docEmpty = .err "No meshes found in the document I guess" :=
  ⟨locator_selects_first_pair docEmpty, by decide⟩

/-- C10: if the locator finds a first (Mesh, Polylist) pair, load_mesh
returns exactly the decode result of that pair — so a decode failure of
the first pair is returned immediately and no later pair is attempted —
and the not-found error is never the outcome in that case. -/
theorem load_mesh_first_pair_decides (doc : Document) (m : Mesh) (pl : Polylist)
    (h : findInLibraries doc.libraries = some (m, pl)) :
    load_mesh doc = process_polylist m pl ∧
    load_mesh doc ≠ .err "No meshes found in the document I guess" := by
  have hl : load_mesh doc = process_polylist m pl := by rw [load_mesh, h]
  refine ⟨hl, ?_⟩
  rw [hl]
  intro hc
  rcases process_polylist_err m pl _ hc with h1 | h1 <;> exact absurd h1 (by decide)

/-- Witness for C10: a document whose first located pair fails to decode
(missing position) while a later pair would decode successfully; load_mesh
returns the decode error of the first pair. -/
theorem load_mesh_first_pair_decides_witness :
    (load_mesh docFirstBad = process_polylist meshNoPos plNoPos ∧
      load_mesh docFirstBad ≠ .err "No meshes found in the document I guess") ∧
    process_polylist meshNoPos plNoPos = .err "Vertex missing position attribute" ∧
    process_polylist mesh1 pl1 = .ok ⟨scenarioVertices, [0, 1, 2]⟩ :=
  ⟨load_mesh_first_pair_decides docFirstBad meshNoPos plNoPos (by decide), by decide, by decide⟩

/-! ### Shape of a successful decode (claim C1) -/

/-- The index sequence appended by the corner loop: n truncated running
counts beginning at `start`. -/
def identityIndices : Nat → Nat → List Nat
  | _, 0 => []
  | start, n + 1 => u32Mod start :: identityIndices (start + 1) n

theorem identityIndices_eq_range (start n : Nat) :
    identityIndices start n = (List.range n).map (fun k => u32Mod (start + k)) := by
  induction n generalizing start with
  | zero => rfl
  | succ n ih =>
    rw [identityIndices, ih, List.range_succ_eq_map, List.map_cons, List.map_map]
    have harg : ∀ k : Nat, u32Mod (start + 1 + k) = ((fun k => u32Mod (start + k)) ∘ Nat.succ) k := by
      intro k
      simp only [Function.comp]
      congr 1
      omega
    simp only [Nat.add_zero, harg]

theorem processCorners_ok_shape (m : Mesh) (pl : Polylist) (cs : List (List VertexAttribute)) :
    ∀ (vs0 : List Vertex) (is0 : List Nat) (vs : List Vertex) (is : List Nat),
      processCorners m pl cs vs0 is0 = .ok (vs, is) →
      vs.length = vs0.length + cs.length ∧ is = is0 ++ identityIndices is0.length cs.length := by
  induction cs with
  | nil =>
    intro vs0 is0 vs is h
    simp [processCorners] at h
    obtain ⟨h1, h2⟩ := h
    subst h1; subst h2
    simp [identityIndices]
  | cons attrs rest ih =>
    intro vs0 is0 vs is h
    unfold processCorners at h
    cases hc : processCorner m pl attrs with
    | fatal p => simp [hc] at h
    | err e => simp [hc] at h
    | ok v =>
      rw [hc] at h
      obtain ⟨h1, h2⟩ := ih (vs0 ++ [v]) (is0 ++ [u32Mod is0.length]) vs is h
      constructor
      · simp only [List.length_append, List.length_cons, List.length_nil] at h1 ⊢
        omega
      · rw [h2]
        simp [identityIndices, List.append_assoc]

/-! ### A decode with more than 2 ^ 32 corners (counterexample for C1) -/

/-- One more corner than fits in a u32 index. -/
def cexN : Nat := 2 ^ 32 + 1

/-- A polylist with cexN corners in one polygon, a single VERTEX input at
offset 0 and an empty p stream (every read index defaults to 0). -/
def cexPolylist : Polylist := ⟨[⟨0, "VERTEX", "verts"⟩], [cexN], []⟩

/-- The host mesh of the huge polylist. -/
def cexMesh : Mesh := ⟨⟨"verts", [⟨"POSITION", "pos"⟩]⟩, [posSource], [.polylist cexPolylist]⟩

/-- The vertex record every corner of the huge polylist decodes to. -/
def cexVertex : Vertex := ⟨⟨0, 0, 0⟩, none, []⟩

theorem cex_cornerAttributes (c : Nat) :
    cexPolylist.cornerAttributes c = [⟨0, 0⟩] := by
  simp [Polylist.cornerAttributes, attributesFrom, Polylist.offsets, Polylist.stride,
    cexPolylist, dedupFirst, dedupFirst.go]

theorem cex_corners : cexPolylist.corners = List.replicate cexPolylist.totalCorners [⟨0, 0⟩] := by
  rw [List.eq_replicate_iff]
  constructor
  · simp [Polylist.corners]
  · intro attrs h
    simp only [Polylist.corners, List.mem_map] at h
    obtain ⟨c, _, hc⟩ := h
    rw [← hc, cex_cornerAttributes]

theorem processCorners_replicate (m : Mesh) (pl : Polylist) (attrs : List VertexAttribute)
    (v : Vertex) (hv : processCorner m pl attrs = .ok v) :
    ∀ (n : Nat) (vs : List Vertex) (is : List Nat),
      processCorners m pl (List.replicate n attrs) vs is =
        .ok (vs ++ List.replicate n v, is ++ identityIndices is.length n) := by
  intro n
  induction n with
  | zero => intro vs is; simp [processCorners, identityIndices]
  | succ n ih =>
    intro vs is
    rw [List.replicate_succ]
    unfold processCorners
    simp only [hv]
    rw [ih]
    simp [identityIndices, List.replicate_succ, List.append_assoc]

theorem cex_decode :
    decodePolylist cexMesh cexPolylist =
      .ok (List.replicate cexN cexVertex, (List.range cexN).map u32Mod) := by
  have htotal : cexPolylist.totalCorners = cexN := by
    simp only [Polylist.totalCorners, cexPolylist, List.sum_cons, List.sum_nil, Nat.add_zero]
  have hcorner : processCorner cexMesh cexPolylist [⟨0, 0⟩] = .ok cexVertex := by decide
  have h1 : processCorners cexMesh cexPolylist (List.replicate cexN [⟨0, 0⟩]) [] [] =
      .ok (([] : List Vertex) ++ List.replicate cexN cexVertex,
        ([] : List Nat) ++ identityIndices ([] : List Nat).length cexN) :=
    processCorners_replicate cexMesh cexPolylist [⟨0, 0⟩] cexVertex hcorner cexN [] []
  have h3 : identityIndices ([] : List Nat).length cexN =
      (List.range cexN).map (fun k => u32Mod (0 + k)) := identityIndices_eq_range 0 cexN
  have h4 : (fun k => u32Mod (0 + k)) = u32Mod :=
    funext (fun k => congrArg u32Mod (Nat.zero_add k))
  rw [decodePolylist, cex_corners, htotal, h1, h3, h4, List.nil_append, List.nil_append]

/-! ### Claim C1 -/

/-- C1 (amended): for every polylist with N total polygon-corners, a
successful decode produces a vertex list and an index list of length N,
and the index list holds the truncated running count i mod 2 ^ 32 at
position i (one fresh vertex record and one sequential u32 index per
corner, no deduplication); whenever N does not exceed 2 ^ 32 this is
exactly the identity sequence [0, 1, ..., N - 1]. -/
theorem decode_emits_identity_indices (m : Mesh) (pl : Polylist) (vs : List Vertex)
    (is : List Nat) (h : decodePolylist m pl = .ok (vs, is)) :
    vs.length = pl.totalCorners ∧ is.length = pl.totalCorners ∧
    is = (List.range pl.totalCorners).map u32Mod ∧
    (pl.totalCorners ≤ 2 ^ 32 → is = List.range pl.totalCorners) := by
  obtain ⟨h1, h2⟩ := processCorners_ok_shape m pl pl.corners [] [] vs is h
  have hlen : pl.corners.length = pl.totalCorners := by simp [Polylist.corners]
  have heta : (fun k => u32Mod (0 + k)) = u32Mod :=
    funext (fun k => congrArg u32Mod (Nat.zero_add k))
  have his : is = (List.range pl.totalCorners).map u32Mod := by
    rw [h2, identityIndices_eq_range, hlen, List.nil_append, List.length_nil, heta]
  refine ⟨?_, ?_, his, ?_⟩
  · rw [h1, hlen]; simp
  · rw [his]; simp
  · intro hN
    rw [his]
    have hid : ∀ k ∈ List.range pl.totalCorners, u32Mod k = k := fun k hk =>
      Nat.mod_eq_of_lt (lt_of_lt_of_le (List.mem_range.mp hk) hN)
    rw [List.map_congr_left hid]
    simp

/-- Witness for C1 at the spec scenario triangle: three corners decode to
three vertex records and the identity index list [0, 1, 2]. -/
theorem decode_emits_identity_indices_witness :
    scenarioVertices.length = pl1.totalCorners ∧
    ([0, 1, 2] : List Nat).length = pl1.totalCorners ∧
    ([0, 1, 2] : List Nat) = (List.range pl1.totalCorners).map u32Mod ∧
    (pl1.totalCorners ≤ 2 ^ 32 → ([0, 1, 2] : List Nat) = List.range pl1.totalCorners) :=
  decode_emits_identity_indices mesh1 pl1 scenarioVertices [0, 1, 2] (by decide)

/-- Counterexample to C1 as stated: a polylist with 2 ^ 32 + 1 corners
decodes successfully, but the `as u32` cast of the running index counter
wraps, so the entry at position 2 ^ 32 of the index list is 0 and the
index list is not the identity sequence [0, 1, ..., N - 1]. -/
theorem decode_identity_indices_counterexample :
    decodePolylist cexMesh cexPolylist =
      .ok (List.replicate cexN cexVertex, (List.range cexN).map u32Mod) ∧
    (List.range cexN).map u32Mod ≠ List.range cexN := by
  refine ⟨cex_decode, ?_⟩
  intro hEq
  have hlt : 2 ^ 32 < cexN := Nat.lt_succ_self _
  have h2 : (List.range cexN)[2 ^ 32]? = some (2 ^ 32) := List.getElem?_range hlt
  have h3 : ((List.range cexN).map u32Mod)[2 ^ 32]? = some (u32Mod (2 ^ 32)) := by
    rw [List.getElem?_map, h2]
    rfl
  rw [hEq, h2] at h3
  have h4 : (2 : Nat) ^ 32 = u32Mod (2 ^ 32) := Option.some.inj h3
  have h5 : u32Mod (2 ^ 32) = 0 := Nat.mod_self _
  rw [h5] at h4
  exact absurd h4 (by decide)

/-! ### Claim C3 -/

theorem processCorners_first_err (m : Mesh) (pl : Polylist) :
    ∀ (cs : List (List VertexAttribute)) (k : Nat) (e : String) (vs : List Vertex)
      (is : List Nat) (attrs : List VertexAttribute),
      cs[k]? = some attrs →
      processCorner m pl attrs = .err e →
      (∀ j attrs2, j < k → cs[j]? = some attrs2 → ∃ v, processCorner m pl attrs2 = .ok v) →
      processCorners m pl cs vs is = .err e := by
  intro cs
  induction cs with
  | nil => intro k e vs is attrs hk; simp at hk
  | cons a rest ih =>
    intro k e vs is attrs hk hbad hbefore
    cases k with
    | zero =>
      rw [List.getElem?_cons_zero] at hk
      obtain rfl : a = attrs := Option.some.inj hk
      unfold processCorners
      rw [hbad]
    | succ k =>
      rw [List.getElem?_cons_succ] at hk
      obtain ⟨v, hv⟩ := hbefore 0 a (Nat.succ_pos k) List.getElem?_cons_zero
      unfold processCorners
      rw [hv]
      exact ih k e (vs ++ [v]) (is ++ [u32Mod is.length]) attrs hk hbad
        (fun j attrs2 hj hj2 =>
          hbefore (j + 1) attrs2 (Nat.succ_lt_succ hj)
            (by rw [List.getElem?_cons_succ]; exact hj2))

/-- C3: if decoding reaches a corner (every earlier corner produced a
vertex record) and processing all attributes of that corner completes
without aborting but produces no position, then the decode of the whole
mesh fails with the recoverable missing-position error — a typed failure
returned to the caller, not an abort — and no mesh value is produced. -/
theorem missing_position_is_recoverable (m : Mesh) (pl : Polylist) (c : Nat) (st : VertexState)
    (hc : c < pl.totalCorners)
    (hst : processAttributes m pl (pl.cornerAttributes c) ⟨none, none⟩ = .ok st)
    (hnopos : st.position = none)
    (hbefore : ∀ c2, c2 < c → ∃ v, processCorner m pl (pl.cornerAttributes c2) = .ok v) :
    process_polylist m pl = .err "Vertex missing position attribute" := by
  have hbad : processCorner m pl (pl.cornerAttributes c) = .err "Vertex missing position attribute" := by
    unfold processCorner
    rw [hst]
    simp [hnopos]
  have hcs : ∀ j, j < pl.totalCorners → pl.corners[j]? = some (pl.cornerAttributes j) := by
    intro j hj
    unfold Polylist.corners
    rw [List.getElem?_map, List.getElem?_range hj]
    rfl
  have hdecode : decodePolylist m pl = .err "Vertex missing position attribute" := by
    apply processCorners_first_err m pl pl.corners c _ [] [] (pl.cornerAttributes c)
      (hcs c hc) hbad
    intro j attrs2 hj hj2
    rw [hcs j (lt_trans hj hc)] at hj2
    obtain rfl : pl.cornerAttributes j = attrs2 := Option.some.inj hj2
    exact hbefore j hj
  simp [process_polylist, hdecode]

/-- Witness for C3: a polylist whose single corner has no inputs at all,
so no position is contributed and the decode returns the recoverable
error. -/
theorem missing_position_is_recoverable_witness :
    process_polylist meshNoPos plNoPos = .err "Vertex missing position attribute" :=
  missing_position_is_recoverable meshNoPos plNoPos 0 ⟨none, none⟩ (by decide) (by decide) rfl
    (fun c2 h => absurd h (Nat.not_lt_zero c2))

/-! ### Fatal-condition lemmas (claims C4 and C5) -/

theorem mem_dedupFirst_go (x : Nat) :
    ∀ (l seen : List Nat), x ∈ dedupFirst.go seen l ↔ x ∈ l ∧ x ∉ seen := by
  intro l
  induction l with
  | nil => intro seen; simp [dedupFirst.go]
  | cons y ys ih =>
    intro seen
    by_cases hy : y ∈ seen
    · rw [dedupFirst.go, if_pos hy, ih]
      constructor
      · exact fun ⟨h1, h2⟩ => ⟨List.mem_cons_of_mem y h1, h2⟩
      · rintro ⟨h1, h2⟩
        rcases List.mem_cons.mp h1 with rfl | h1
        · exact absurd hy h2
        · exact ⟨h1, h2⟩
    · rw [dedupFirst.go, if_neg hy]
      constructor
      · intro h
        rcases List.mem_cons.mp h with rfl | h
        · exact ⟨List.mem_cons_self x ys, hy⟩
        · obtain ⟨h1, h2⟩ := (ih (y :: seen)).mp h
          refine ⟨List.mem_cons_of_mem y h1, fun hc => h2 (List.mem_cons_of_mem y hc)⟩
      · rintro ⟨h1, h2⟩
        rcases List.mem_cons.mp h1 with rfl | h1
        · exact List.mem_cons_self x _
        · by_cases hxy : x = y
          · subst hxy; exact List.mem_cons_self x _
          · exact List.mem_cons_of_mem y ((ih (y :: seen)).mpr
              ⟨h1, fun hc => by
                rcases List.mem_cons.mp hc with h3 | h3
                · exact hxy h3
                · exact h2 h3⟩)

theorem mem_offsets_of_mem_inputs (pl : Polylist) (inp : InputShared) (h : inp ∈ pl.inputs) :
    inp.offset ∈ pl.offsets := by
  unfold Polylist.offsets dedupFirst
  exact (mem_dedupFirst_go inp.offset _ []).mpr ⟨List.mem_map_of_mem _ h, List.not_mem_nil _⟩

theorem attributesFrom_mem_offset (pl : Polylist) (off : Nat) :
    ∀ (offs : List Nat) (base j : Nat), off ∈ offs →
      ∃ a ∈ attributesFrom pl base offs j, a.offset = off := by
  intro offs
  induction offs with
  | nil => intro base j h; simp at h
  | cons o rest ih =>
    intro base j h
    rcases List.mem_cons.mp h with rfl | h
    · exact ⟨⟨off, pl.p.getD (base + j) 0⟩, List.mem_cons_self _ _, rfl⟩
    · obtain ⟨a, ha, hoff⟩ := ih base (j + 1) h
      exact ⟨a, List.mem_cons_of_mem _ ha, hoff⟩

theorem vertexResolve_foreign (m : Mesh) (inp : InputShared) (idx : Nat)
    (hid : m.vertices.id ≠ inp.source) :
    vertexResolve m inp idx = .error .foreignVertices := by
  unfold vertexResolve
  rw [if_pos hid]

theorem processInput_vertex_err (m : Mesh) (inp : InputShared) (idx : Nat) (st : VertexState)
    (p : Panic) (hsem : inp.semantic = "VERTEX") (hv : vertexResolve m inp idx = .error p) :
    processInput m inp idx st = .error p := by
  unfold processInput
  rw [if_pos hsem, hv]

theorem processInputs_err_of_vertex (m : Mesh) (idx : Nat) :
    ∀ (inputs : List InputShared) (st : VertexState) (inp : InputShared),
      inp ∈ inputs → inp.semantic = "VERTEX" →
      (∃ p0, vertexResolve m inp idx = .error p0) →
      ∃ p, processInputs m idx inputs st = .error p := by
  intro inputs
  induction inputs with
  | nil => intro st inp h; simp at h
  | cons j rest ih =>
    intro st inp hmem hsem herr
    obtain ⟨p0, hp0⟩ := herr
    cases hj : processInput m j idx st with
    | error p => exact ⟨p, by unfold processInputs; rw [hj]⟩
    | ok st2 =>
      rcases List.mem_cons.mp hmem with rfl | hmem
      · rw [processInput_vertex_err m inp idx st p0 hsem hp0] at hj
        exact absurd hj (by simp)
      · obtain ⟨p, hp⟩ := ih st2 inp hmem hsem ⟨p0, hp0⟩
        exact ⟨p, by unfold processInputs; rw [hj]; exact hp⟩

theorem processAttributes_err_of (m : Mesh) (pl : Polylist) :
    ∀ (attrs : List VertexAttribute) (st : VertexState) (a : VertexAttribute),
      a ∈ attrs →
      (∀ st2, ∃ p, processInputs m a.index (pl.inputs_for_offset a.offset) st2 = .error p) →
      ∃ p, processAttributes m pl attrs st = .error p := by
  intro attrs
  induction attrs with
  | nil => intro st a h; simp at h
  | cons a0 rest ih =>
    intro st a hmem hfail
    rcases List.mem_cons.mp hmem with rfl | hmem
    · obtain ⟨p, hp⟩ := hfail st
      exact ⟨p, by unfold processAttributes processAttribute; rw [hp]⟩
    · cases h0 : processAttribute m pl a0 st with
      | error p => exact ⟨p, by unfold processAttributes; rw [h0]⟩
      | ok st2 =>
        obtain ⟨p, hp⟩ := ih st2 a hmem hfail
        exact ⟨p, by unfold processAttributes; rw [h0]; exact hp⟩

theorem processCorner_fatal_of (m : Mesh) (pl : Polylist) (attrs : List VertexAttribute)
    (p : Panic) (h : processAttributes m pl attrs ⟨none, none⟩ = .error p) :
    processCorner m pl attrs = .fatal p := by
  unfold processCorner
  rw [h]

theorem corners_cons_of_pos (pl : Polylist) (h : 0 < pl.totalCorners) :
    ∃ rest, pl.corners = pl.cornerAttributes 0 :: rest := by
  cases hN : pl.totalCorners with
  | zero => omega
  | succ n =>
    refine ⟨(List.map Nat.succ (List.range n)).map pl.cornerAttributes, ?_⟩
    unfold Polylist.corners
    rw [hN, List.range_succ_eq_map, List.map_cons]

theorem process_polylist_fatal_of_corner0 (m : Mesh) (pl : Polylist)
    (hpos : 0 < pl.totalCorners) (p : Panic)
    (h : processCorner m pl (pl.cornerAttributes 0) = .fatal p) :
    process_polylist m pl = .fatal p := by
  obtain ⟨rest, hc⟩ := corners_cons_of_pos pl hpos
  have hd : decodePolylist m pl = .fatal p := by
    unfold decodePolylist
    rw [hc]
    unfold processCorners
    rw [h]
  simp [process_polylist, hd]

/-! ### Claim C4 -/

/-- C4: a VERTEX-semantic input whose source id differs from the own
Vertices id of the mesh makes decoding fail fatally: processing that input always
yields the foreign-Vertices consistency violation, and whenever the
polylist has at least one corner the whole decode aborts with a fatal
outcome — it never completes normally and never produces a mesh. -/
theorem foreign_vertices_is_fatal (m : Mesh) (pl : Polylist) (inp : InputShared)
    (idx : Nat) (st : VertexState)
    (hcorners : 0 < pl.totalCorners) (hmem : inp ∈ pl.inputs)
    (hsem : inp.semantic = "VERTEX") (hid : inp.source ≠ m.vertices.id) :
    (∃ p, process_polylist m pl = .fatal p) ∧
    processInput m inp idx st = .error .foreignVertices := by
  have hforeign : ∀ k, vertexResolve m inp k = .error .foreignVertices :=
    fun k => vertexResolve_foreign m inp k (Ne.symm hid)
  refine ⟨?_, processInput_vertex_err m inp idx st _ hsem (hforeign idx)⟩
  obtain ⟨a, ha, haoff⟩ := attributesFrom_mem_offset pl inp.offset pl.offsets
    (0 * pl.stride) 0 (mem_offsets_of_mem_inputs pl inp hmem)
  have hfilter : inp ∈ pl.inputs_for_offset a.offset := by
    unfold Polylist.inputs_for_offset
    exact List.mem_filter.mpr ⟨hmem, by simp [haoff]⟩
  have hinputs : ∀ st2, ∃ p, processInputs m a.index (pl.inputs_for_offset a.offset) st2 = .error p :=
    fun st2 => processInputs_err_of_vertex m a.index _ st2 inp hfilter hsem
      ⟨.foreignVertices, hforeign a.index⟩
  obtain ⟨p, hp⟩ := processAttributes_err_of m pl (pl.cornerAttributes 0) ⟨none, none⟩ a
    (by unfold Polylist.cornerAttributes; exact ha) hinputs
  exact ⟨p, process_polylist_fatal_of_corner0 m pl hcorners p
    (processCorner_fatal_of m pl _ p hp)⟩

/-- A polylist whose VERTEX input references a foreign vertices block. -/
def plForeign : Polylist := ⟨[⟨0, "VERTEX", "someone-elses-verts"⟩], [1], [0]⟩

/-- The host mesh of the foreign-reference polylist (its own vertices
block id is different). -/
def meshForeign : Mesh := ⟨⟨"verts", [⟨"POSITION", "pos"⟩]⟩, [posSource], [.polylist plForeign]⟩

/-- Witness for C4: the foreign-reference polylist decodes to a fatal
outcome and the offending input processes to the consistency
violation. -/
theorem foreign_vertices_is_fatal_witness :
    (∃ p, process_polylist meshForeign plForeign = .fatal p) ∧
    processInput meshForeign ⟨0, "VERTEX", "someone-elses-verts"⟩ 0 ⟨none, none⟩ =
      .error .foreignVertices :=
  foreign_vertices_is_fatal meshForeign plForeign ⟨0, "VERTEX", "someone-elses-verts"⟩ 0
    ⟨none, none⟩ (by decide) (by decide) (by decide) (by decide)

/-! ### Claim C5 -/

theorem vertexResolve_noPosition (m : Mesh) (inp : InputShared) (idx : Nat)
    (hid : m.vertices.id = inp.source)
    (hnp : ∀ i ∈ m.vertices.inputs, i.semantic ≠ "POSITION") :
    vertexResolve m inp idx = .error .noPositionSemantic := by
  unfold vertexResolve
  rw [if_neg (by simp [hid])]
  have hfind : m.vertices.inputs.find? (fun i => i.semantic == "POSITION") = none := by
    rw [List.find?_eq_none]
    intro i hi
    simpa using hnp i hi
  rw [hfind]

theorem vertexResolve_ne_noPosition (m : Mesh) (inp : InputShared) (idx : Nat)
    (hpos : ∃ i ∈ m.vertices.inputs, i.semantic = "POSITION") :
    vertexResolve m inp idx ≠ .error .noPositionSemantic := by
  unfold vertexResolve
  by_cases hid : m.vertices.id ≠ inp.source
  · rw [if_pos hid]; simp
  · rw [if_neg hid]
    cases hf : m.vertices.inputs.find? (fun i => i.semantic == "POSITION") with
    | none =>
      obtain ⟨i, hi, hisem⟩ := hpos
      have hni := List.find?_eq_none.mp hf i hi
      simp [hisem] at hni
    | some inner =>
      cases hq1 : m.find_source inner.source with
      | none => simp [hq1]
      | some source =>
        cases hq2 : source.common_accessor with
        | none => simp [hq1, hq2]
        | some accessor =>
          cases hq3 : source.array.bind ArrayElement.as_float_array with
          | none => simp [hq1, hq2, hq3]
          | some arr =>
            rcases hsp : scanParams accessor.params (accessor.access arr.data idx)
              (none, none, none) with ⟨_ | x, _ | y, _ | z⟩ <;> simp [hq1, hq2, hq3, hsp]

theorem normalResolve_ne_noPosition (m : Mesh) (inp : InputShared) (idx : Nat) :
    normalResolve m inp idx ≠ .error .noPositionSemantic := by
  unfold normalResolve
  cases hq1 : m.find_source inp.source with
  | none => simp [hq1]
  | some source =>
    cases hq2 : source.common_accessor with
    | none => simp [hq1, hq2]
    | some accessor =>
      cases hq3 : source.array.bind ArrayElement.as_float_array with
      | none => simp [hq1, hq2, hq3]
      | some arr =>
        rcases hsp : scanParams accessor.params (accessor.access arr.data idx)
          (none, none, none) with ⟨_ | x, _ | y, _ | z⟩ <;> simp [hq1, hq2, hq3, hsp]

theorem processInput_ne_noPosition (m : Mesh)
    (hpos : ∃ i ∈ m.vertices.inputs, i.semantic = "POSITION") :
    ∀ (inp : InputShared) (k : Nat) (st : VertexState),
      processInput m inp k st ≠ .error .noPositionSemantic := by
  intro inp k st
  unfold processInput
  by_cases hv : inp.semantic = "VERTEX"
  · rw [if_pos hv]
    cases hr : vertexResolve m inp k with
    | error p =>
      intro h
      simp only [] at h
      obtain rfl : p = Panic.noPositionSemantic := by simpa using h
      exact vertexResolve_ne_noPosition m inp k hpos hr
    | ok pos => simp
  · rw [if_neg hv]
    by_cases hn : inp.semantic = "NORMAL"
    · rw [if_pos hn]
      cases hr : normalResolve m inp k with
      | error p =>
        intro h
        simp only [] at h
        obtain rfl : p = Panic.noPositionSemantic := by simpa using h
        exact normalResolve_ne_noPosition m inp k hr
      | ok n => simp
    · rw [if_neg hn]
      simp

theorem processInputs_ne_of (m : Mesh) (p0 : Panic)
    (hInp : ∀ (inp : InputShared) (k : Nat) (st : VertexState),
      processInput m inp k st ≠ .error p0) :
    ∀ (k : Nat) (inputs : List InputShared) (st : VertexState),
      processInputs m k inputs st ≠ .error p0 := by
  intro k inputs
  induction inputs with
  | nil => intro st h; simp [processInputs] at h
  | cons j rest ih =>
    intro st h
    unfold processInputs at h
    cases hj : processInput m j k st with
    | error p =>
      rw [hj] at h
      have hpp : p = p0 := by simpa using h
      exact hInp j k st (hpp ▸ hj)
    | ok st2 =>
      rw [hj] at h
      exact ih st2 h

theorem processAttributes_ne_of (m : Mesh) (pl : Polylist) (p0 : Panic)
    (hInp : ∀ (inp : InputShared) (k : Nat) (st : VertexState),
      processInput m inp k st ≠ .error p0) :
    ∀ (attrs : List VertexAttribute) (st : VertexState),
      processAttributes m pl attrs st ≠ .error p0 := by
  intro attrs
  induction attrs with
  | nil => intro st h; simp [processAttributes] at h
  | cons a rest ih =>
    intro st h
    unfold processAttributes at h
    cases ha : processAttribute m pl a st with
    | error p =>
      rw [ha] at h
      have hpp : p = p0 := by simpa using h
      exact processInputs_ne_of m p0 hInp a.index _ st (hpp ▸ ha)
    | ok st2 =>
      rw [ha] at h
      exact ih st2 h

theorem processCorner_ne_fatal_of (m : Mesh) (pl : Polylist) (p0 : Panic)
    (hInp : ∀ (inp : InputShared) (k : Nat) (st : VertexState),
      processInput m inp k st ≠ .error p0) :
    ∀ (attrs : List VertexAttribute), processCorner m pl attrs ≠ .fatal p0 := by
  intro attrs h
  unfold processCorner at h
  cases ha : processAttributes m pl attrs ⟨none, none⟩ with
  | error p =>
    rw [ha] at h
    have hpp : p = p0 := by simpa using h
    exact processAttributes_ne_of m pl p0 hInp attrs _ (hpp ▸ ha)
  | ok st =>
    rw [ha] at h
    cases hs : st.position with
    | none => simp [hs] at h
    | some pos => simp [hs] at h

theorem process_polylist_ne_fatal_of (m : Mesh) (pl : Polylist) (p0 : Panic)
    (hInp : ∀ (inp : InputShared) (k : Nat) (st : VertexState),
      processInput m inp k st ≠ .error p0) :
    process_polylist m pl ≠ .fatal p0 := by
  have hcorners : ∀ (cs : List (List VertexAttribute)) (vs : List Vertex) (is : List Nat),
      processCorners m pl cs vs is ≠ .fatal p0 := by
    intro cs
    induction cs with
    | nil => intro vs is h; simp [processCorners] at h
    | cons attrs rest ih =>
      intro vs is h
      unfold processCorners at h
      cases hc : processCorner m pl attrs with
      | fatal p =>
        rw [hc] at h
        have hpp : p = p0 := by simpa using h
        exact processCorner_ne_fatal_of m pl p0 hInp attrs (hpp ▸ hc)
      | err e => rw [hc] at h; simp at h
      | ok v => rw [hc] at h; exact ih _ _ h
  intro h
  unfold process_polylist at h
  cases hd : decodePolylist m pl with
  | fatal p =>
    rw [hd] at h
    obtain rfl : p = p0 := by simpa using h
    exact hcorners pl.corners [] [] hd
  | err e => rw [hd] at h; simp at h
  | ok pair =>
    obtain ⟨vs, is⟩ := pair
    rw [hd] at h
    cases hb : buildMesh vs is with
    | some pm => simp [hb] at h
    | none => simp [hb] at h

/-- C5: when the polylist has a corner and a VERTEX-semantic input, a
Vertices block without any POSITION-semantic input makes the whole decode
fail fatally, and processing the VERTEX input (when it references the
own Vertices block of the mesh) yields precisely the malformed-document
missing-POSITION abort; conversely, when a POSITION input exists, that
failure is never the outcome of a decode. -/
theorem no_position_input_is_fatal (m : Mesh) (pl : Polylist) :
    (∀ (inp : InputShared) (idx : Nat) (st : VertexState),
      0 < pl.totalCorners → inp ∈ pl.inputs → inp.semantic = "VERTEX" →
      (∀ i ∈ m.vertices.inputs, i.semantic ≠ "POSITION") →
      (∃ p, process_polylist m pl = .fatal p) ∧
      (inp.source = m.vertices.id →
        processInput m inp idx st = .error .noPositionSemantic)) ∧
    ((∃ i ∈ m.vertices.inputs, i.semantic = "POSITION") →
      process_polylist m pl ≠ .fatal .noPositionSemantic) := by
  constructor
  · intro inp idx st hc hmem hsem hnp
    have herr : ∀ k, ∃ p0, vertexResolve m inp k = .error p0 := by
      intro k
      by_cases hid : m.vertices.id = inp.source
      · exact ⟨.noPositionSemantic, vertexResolve_noPosition m inp k hid hnp⟩
      · exact ⟨.foreignVertices, vertexResolve_foreign m inp k hid⟩
    constructor
    · obtain ⟨a, ha, haoff⟩ := attributesFrom_mem_offset pl inp.offset pl.offsets
        (0 * pl.stride) 0 (mem_offsets_of_mem_inputs pl inp hmem)
      have hfilter : inp ∈ pl.inputs_for_offset a.offset := by
        unfold Polylist.inputs_for_offset
        exact List.mem_filter.mpr ⟨hmem, by simp [haoff]⟩
      have hinputs : ∀ st2, ∃ p,
          processInputs m a.index (pl.inputs_for_offset a.offset) st2 = .error p :=
        fun st2 => processInputs_err_of_vertex m a.index _ st2 inp hfilter hsem (herr a.index)
      obtain ⟨p, hp⟩ := processAttributes_err_of m pl (pl.cornerAttributes 0) ⟨none, none⟩ a
        (by unfold Polylist.cornerAttributes; exact ha) hinputs
      exact ⟨p, process_polylist_fatal_of_corner0 m pl hc p
        (processCorner_fatal_of m pl _ p hp)⟩
    · intro hid
      exact processInput_vertex_err m inp idx st _ hsem
        (vertexResolve_noPosition m inp idx hid.symm hnp)
  · intro hpos
    exact process_polylist_ne_fatal_of m pl .noPositionSemantic (processInput_ne_noPosition m hpos)

/-- A mesh whose Vertices block has no POSITION input, hosting a polylist
with a VERTEX input that references it. -/
def plVert : Polylist := ⟨[⟨0, "VERTEX", "verts"⟩], [1], [0]⟩

/-- The host mesh without a POSITION input in its vertices block. -/
def meshNoPosInput : Mesh := ⟨⟨"verts", [⟨"NOTPOSITION", "pos"⟩]⟩, [posSource], [.polylist plVert]⟩

/-- Witness for C5: the POSITION-less mesh decodes to a fatal outcome and
the VERTEX input processes to the missing-POSITION abort; on the spec
scenario triangle (which has a POSITION input) the missing-POSITION abort
is never the decode outcome. -/
theorem no_position_input_is_fatal_witness :
    ((∃ p, process_polylist meshNoPosInput plVert = .fatal p) ∧
      ((⟨0, "VERTEX", "verts"⟩ : InputShared).source = meshNoPosInput.vertices.id →
        processInput meshNoPosInput ⟨0, "VERTEX", "verts"⟩ 0 ⟨none, none⟩ =
          .error .noPositionSemantic)) ∧
    process_polylist mesh1 pl1 ≠ .fatal .noPositionSemantic :=
  ⟨(no_position_input_is_fatal meshNoPosInput plVert).1 ⟨0, "VERTEX", "verts"⟩ 0 ⟨none, none⟩
      (by decide) (by decide) (by decide) (by decide),
    (no_position_input_is_fatal mesh1 pl1).2 ⟨⟨"POSITION", "pos"⟩, by decide, rfl⟩⟩

/-! ### Claim C6 -/

/-- C6: a float-array source whose common accessor has stride 3 and params
named X, Y, Z, accessed at logical index i (in bounds), yields the slice
[data[3i], data[3i+1], data[3i+2]], and the positional param pairing
collects exactly those three values as the X, Y, Z components. -/
theorem accessor_stride3_xyz (a : Accessor) (data : List F) (i : Nat)
    (hstride : a.stride = 3)
    (hparams : a.params = [⟨some "X"⟩, ⟨some "Y"⟩, ⟨some "Z"⟩])
    (hlen : 3 * i + 3 ≤ data.length) :
    a.access data i = [data.getD (3 * i) 0, data.getD (3 * i + 1) 0, data.getD (3 * i + 2) 0] ∧
    scanParams a.params (a.access data i) (none, none, none) =
      (some (data.getD (3 * i) 0), some (data.getD (3 * i + 1) 0),
        some (data.getD (3 * i + 2) 0)) := by
  have h1 : 3 * i < data.length := by omega
  have h2 : 3 * i + 1 < data.length := by omega
  have h3 : 3 * i + 2 < data.length := by omega
  have haccess : a.access data i =
      [data.getD (3 * i) 0, data.getD (3 * i + 1) 0, data.getD (3 * i + 2) 0] := by
    unfold Accessor.access
    rw [hstride]
    rw [List.drop_eq_getElem_cons h1, List.drop_eq_getElem_cons h2,
      List.drop_eq_getElem_cons h3]
    rw [List.getD_eq_getElem data 0 h1, List.getD_eq_getElem data 0 h2,
      List.getD_eq_getElem data 0 h3]
    rfl
  refine ⟨haccess, ?_⟩
  rw [haccess, hparams]
  rfl

/-- The accessor of the C6 witness. -/
def acc6 : Accessor := ⟨2, 3, [⟨some "X"⟩, ⟨some "Y"⟩, ⟨some "Z"⟩]⟩

/-- The data of the C6 witness. -/
def data6 : List F := [10, 11, 12, 13, 14, 15]

/-- Witness for C6 at a concrete stride-3 source, logical index 1. -/
theorem accessor_stride3_xyz_witness :
    acc6.access data6 1 = [data6.getD (3 * 1) 0, data6.getD (3 * 1 + 1) 0, data6.getD (3 * 1 + 2) 0] ∧
    scanParams acc6.params (acc6.access data6 1) (none, none, none) =
      (some (data6.getD (3 * 1) 0), some (data6.getD (3 * 1 + 1) 0),
        some (data6.getD (3 * 1 + 2) 0)) :=
  accessor_stride3_xyz acc6 data6 1 (by decide) (by decide) (by decide)

/-! ### Claim C7 -/

/-- C7: decoding is deterministic and stateless: the embedding of the
pipeline is a pure function of the input document, so two loads of the
same document yield identical results. -/
theorem load_mesh_deterministic (d1 d2 : Document) (h : d1 = d2) :
    load_mesh d1 = load_mesh d2 ∧
    ∀ (m : Mesh) (pl : Polylist), process_polylist m pl = process_polylist m pl :=
  ⟨congrArg load_mesh h, fun _ _ => rfl⟩

/-- Witness for C7 at the scenario document. -/
theorem load_mesh_deterministic_witness :
    load_mesh doc1 = load_mesh doc1 ∧
    ∀ (m : Mesh) (pl : Polylist), process_polylist m pl = process_polylist m pl :=
  load_mesh_deterministic doc1 doc1 rfl

/-! ### Claim C8 -/

/-- C8: an input whose semantic is neither VERTEX nor NORMAL is skipped:
processing it contributes nothing, leaves the accumulated position and
normal untouched, and never fails. -/
theorem unknown_semantic_skipped (m : Mesh) (inp : InputShared) (idx : Nat) (st : VertexState)
    (h1 : inp.semantic ≠ "VERTEX") (h2 : inp.semantic ≠ "NORMAL") :
    processInput m inp idx st = .ok st := by
  unfold processInput
  rw [if_neg h1, if_neg h2]

/-- Witness for C8 at a TEXCOORD input. -/
theorem unknown_semantic_skipped_witness :
    processInput mesh1 ⟨2, "TEXCOORD", "tex"⟩ 0 ⟨none, none⟩ = .ok ⟨none, none⟩ :=
  unknown_semantic_skipped mesh1 ⟨2, "TEXCOORD", "tex"⟩ 0 ⟨none, none⟩ (by decide) (by decide)

/-! ### Claim C9 -/

/-- C9: NORMAL-semantic resolution equals the final stage of
VERTEX-semantic resolution applied to the directly referenced source:
both branches factor through the same source-to-XYZ extraction
(finalStageXYZ), the VERTEX branch differing only by the Vertices-block
indirection (the own-id consistency check and the POSITION-input lookup)
before it and by packaging the triple as a Point instead of a Vector3. -/
theorem normal_is_vertex_final_stage (m : Mesh) (inp : InputShared) (idx : Nat) :
    normalResolve m inp idx =
      (finalStageXYZ m inp.source idx).map (fun t => Vector3.mk t.1 t.2.1 t.2.2) ∧
    vertexResolve m inp idx =
      (if m.vertices.id ≠ inp.source then .error .foreignVertices
       else
        match m.vertices.inputs.find? (fun i => i.semantic == "POSITION") with
        | none => .error .noPositionSemantic
        | some inner =>
          (finalStageXYZ m inner.source idx).map (fun t => Point.mk t.1 t.2.1 t.2.2)) := by
  constructor
  · unfold normalResolve finalStageXYZ
    cases hq1 : m.find_source inp.source with
    | none => simp [hq1, Except.map]
    | some source =>
      cases hq2 : source.common_accessor with
      | none => simp [hq1, hq2, Except.map]
      | some accessor =>
        cases hq3 : source.array.bind ArrayElement.as_float_array with
        | none => simp [hq1, hq2, hq3, Except.map]
        | some arr =>
          rcases hsp : scanParams accessor.params (accessor.access arr.data idx)
            (none, none, none) with ⟨_ | x, _ | y, _ | z⟩ <;>
            simp [hq1, hq2, hq3, hsp, Except.map]
  · unfold vertexResolve
    by_cases hid : m.vertices.id ≠ inp.source
    · rw [if_pos hid, if_pos hid]
    · rw [if_neg hid, if_neg hid]
      cases hf : m.vertices.inputs.find? (fun i => i.semantic == "POSITION") with
      | none => simp [hf]
      | some inner =>
        unfold finalStageXYZ
        cases hq1 : m.find_source inner.source with
        | none => simp [hf, hq1, Except.map]
        | some source =>
          cases hq2 : source.common_accessor with
          | none => simp [hf, hq1, hq2, Except.map]
          | some accessor =>
            cases hq3 : source.array.bind ArrayElement.as_float_array with
            | none => simp [hf, hq1, hq2, hq3, Except.map]
            | some arr =>
              rcases hsp : scanParams accessor.params (accessor.access arr.data idx)
                (none, none, none) with ⟨_ | x, _ | y, _ | z⟩ <;>
                simp [hf, hq1, hq2, hq3, hsp, Except.map]

end Collada
